import Mathlib

/-!
Verification development for the FARCO conservator-assessment backend
(`src/backend.js`): a shallow embedding of its spreadsheet-store helpers
(`ensureSheet_`, `getHeaders_`, `nextFreeRowByHeader_`, `appendRowAtKey_`,
`getAll_`, `nextCodeForBatch_`), the note builders (`buildNotes_`,
`getNoteFromNotesRules_`), the selection flag derivation in `saveItem`, and
the photo-saving pipeline `savePhotosDataUrls`, together with theorems about
their behaviour.

Modelling conventions:
* A sheet is its row-1 contents (`header`) plus the contents of rows 2..N
  (`rows`).  A cell holds a display string; a missing list entry is a blank
  cell, so a list of cells is identified with the same list extended by
  blank cells (trailing blank grid rows/columns carry no content and are
  observationally irrelevant to every operation modelled here).
* `getLastColumn()` returns the last column holding content, modelled by
  `lastColumn` via trailing-blank-trimmed widths.
* Errors thrown by the JavaScript are modelled as `Except` values with the
  error taxonomy of the design document (ConfigurationError /
  ValidationError / SchemaError / StorageError).
* External collaborators (Drive folder lookup, base64 decoding, file
  creation, script properties, the formatted timestamp) are passed in as an
  explicit environment; `none`/`false` results model a throwing collaborator.
-/

namespace Farco

/-! ### JavaScript string primitives -/

/-- `s.toLowerCase()` on a character list (ASCII-adequate model). -/
def lowerChars (s : List Char) : List Char := s.map Char.toLower

/-- Substring test: does `pat` occur contiguously inside `s`?  Models the
anchoring-free part of `RegExp.prototype.test` for a plain-text pattern. -/
def hasSubstr (s pat : List Char) : Bool :=
  match s with
  | [] => pat.isEmpty
  | c :: t => pat.isPrefixOf (c :: t) || hasSubstr t pat

/-- `/pat/i.test(s)` for a plain-text ASCII pattern `pat`. -/
def regexTestCI (pat s : String) : Bool :=
  hasSubstr (lowerChars s.toList) (lowerChars pat.toList)

/-- `String(n).padStart(len, c)` (pads, never truncates). -/
def padStart (s : String) (len : Nat) (c : Char) : String :=
  (List.replicate (len - s.length) c).asString ++ s

/-- `s.trim()`: strip whitespace from both ends. -/
def jsTrim (s : String) : String :=
  (((s.toList.dropWhile Char.isWhitespace).reverse.dropWhile Char.isWhitespace).reverse).asString

/-- `s.toLowerCase()` (ASCII-adequate model). -/
def jsToLower (s : String) : String :=
  (s.toList.map Char.toLower).asString

/-! ### Sheet model -/

/-- Model of one sheet: row 1 (`header`) and the data rows 2..N (`rows`),
each a list of displayed cell contents.  Entries beyond a list's length are
blank cells. -/
structure Sheet where
  header : List String
  rows : List (List String)
  deriving Repr, DecidableEq

/-- Error taxonomy of the design document, covering the `throw new Error`
sites of `backend.js`. -/
inductive BackendError where
  | configurationError : BackendError
  | validationError : String → BackendError
  | schemaError : String → BackendError
  | storageError : String → BackendError
  deriving Repr, DecidableEq

/-- Number of columns up to the last non-blank cell of a row
(trailing blank cells carry no content). -/
def contentWidth (row : List String) : Nat :=
  (row.reverse.dropWhile (· == "")).length

/-- `sh.getLastColumn()`: last column with content anywhere in the sheet. -/
def lastColumn (sh : Sheet) : Nat :=
  (sh.rows.map contentWidth).foldr max (contentWidth sh.header)

/-- `getHeaders_(sh)` (backend.js:185-188): the values of
`getRange(1, 1, 1, max(1, getLastColumn()))`, i.e. row 1 padded (or
trimmed of contentless trailing cells) to the content width of the sheet. -/
def getHeaders (sh : Sheet) : List String :=
  (List.range (max 1 (lastColumn sh))).map (fun j => sh.header.getD j "")

/-- `ensureSheet_(name, header)` (backend.js:158-177) acting on the sheet
named `name` (`none` = the sheet does not exist).  A fresh sheet gets the
canonical header written as row 1; an existing sheet gets the missing names
appended after its last content column via
`insertColumnsAfter(current.length, missing.length)` followed by a header
write — an insertion at a position at or beyond every row's content width,
hence shifting no data cell. -/
def ensureSheet (existing : Option Sheet) (header : List String) : Sheet :=
  match existing with
  | none => { header := header, rows := [] }
  | some sh =>
    if header.isEmpty then sh
    else
      let current := getHeaders sh
      let missing := header.filter (fun h => !(current.contains h))
      if missing.isEmpty then sh
      else { sh with header := current ++ missing }

/-- `nextFreeRowByHeader_(sh, keyHeader)` (backend.js:198-212): locate the
key column by header name (first occurrence, `indexOf`), then scan its
displayed values from the bottom row upward and return one past the last
non-empty one; 2 when the column is entirely empty.  The missing-header
throw is the design document's `SchemaError`. -/
def nextFreeRowByHeader (sh : Sheet) (keyHeader : String) : Except BackendError Nat :=
  let headers := getHeaders sh
  match headers.findIdx? (· == keyHeader) with
  | none => .error (.schemaError ("Key header not found: " ++ keyHeader))
  | some idx =>
    let colVals := sh.rows.map (fun row => row.getD idx "")
    match colVals.reverse.findIdx? (· != "") with
    | some k => .ok (colVals.length - 1 - k + 2 + 1)
    | none => .ok 2

/-- Pad a row of cells with blanks up to length `n`. -/
def padTo (l : List String) (n : Nat) : List String :=
  l ++ List.replicate (n - l.length) ""

/-- Write `v` into cell `j` (0-based) of a row, extending it as needed. -/
def setAt (l : List String) (j : Nat) (v : String) : List String :=
  (padTo l (j + 1)).set j v

/-- `sh.getRange(r, c+1).setValue(v)` for a data row `r ≥ 2` and 0-based
column `c`: update one cell, leaving every other cell as it was. -/
def setCell (sh : Sheet) (r c : Nat) (v : String) : Sheet :=
  let i := r - 2
  let newRows :=
    (sh.rows ++ List.replicate (i + 1 - sh.rows.length) []).set i
      (setAt (sh.rows.getD i []) c v)
  { sh with rows := newRows }

/-- Cell `(r, c)` of the sheet (data row `r ≥ 2`, 0-based column `c`). -/
def getCell (sh : Sheet) (r c : Nat) : String :=
  (sh.rows.getD (r - 2) []).getD c ""

/-- The cell-writing loop of `appendRowAtKey_` (backend.js:230-233): for
each key of the record, in order, resolve its column from the header row
read before the loop and set the cell when found; keys absent from the
header are skipped. -/
def writeRecordCells (sh : Sheet) (headers : List String) (r : Nat)
    (record : List (String × String)) : Sheet :=
  record.foldl
    (fun acc hv =>
      match headers.findIdx? (· == hv.1) with
      | some col => setCell acc r col hv.2
      | none => acc)
    sh

/-- `appendRowAtKey_(name, keyHeader, obj)` (backend.js:223-234) acting on
the named sheet (`none` = missing sheet, which throws). -/
def appendRowAtKey (osh : Option Sheet) (keyHeader : String)
    (record : List (String × String)) : Except BackendError Sheet :=
  match osh with
  | none => .error (.storageError "Missing sheet")
  | some sh =>
    let headers := getHeaders sh
    match nextFreeRowByHeader sh keyHeader with
    | .error e => .error e
    | .ok r => .ok (writeRecordCells sh headers r record)

/-! ### Bulk reading (`getAll_`) and the per-batch item code -/

/-- The data rows of `getDataRange().getValues()` (rows 2..lastRow): the
stored rows up to the last one holding content; interior blank rows are
kept, trailing blank rows are outside the data range. -/
def dataRowsForRead (sh : Sheet) : List (List String) :=
  (sh.rows.reverse.dropWhile (fun r => contentWidth r == 0)).reverse

/-- Property access `obj[key]` on a row object built by `getAll_`
(backend.js:249-255): `head.forEach((k, i) => obj[k] = row[i])`, so for a
duplicated header name the last column wins; a key that is no header name
reads as JavaScript `undefined`, modelled by `none`. -/
def recordGet (head row : List String) (key : String) : Option String :=
  match head.reverse.findIdx? (· == key) with
  | some k => some (row.getD (head.length - 1 - k) "")
  | none => none

/-- `getAll_(name)` (backend.js:242-256) restricted to what its callers
consume: the list of data-row objects, each represented by its raw cells
(field access goes through `recordGet` with the sheet's header row). -/
def getAll (osh : Option Sheet) : List (List String) :=
  match osh with
  | none => []
  | some sh => dataRowsForRead sh

/-- `nextCodeForBatch_(batchId)` (backend.js:265-269) over the Items sheet:
count the rows whose `BatchID` field strictly equals `batchId` and format
`'I' + String(count + 1).padStart(3, '0')`. -/
def nextCodeForBatch (itemsSheet : Option Sheet) (batchId : String) : String :=
  let items :=
    (getAll itemsSheet).filter fun row =>
      match itemsSheet with
      | none => false
      | some sh => recordGet (getHeaders sh) row "BatchID" == some batchId
  let n := items.length + 1
  "I" ++ padStart (toString n) 3 '0'

/-! ### Notes builders -/

def histSentence1 : String :=
  "Historic issues, including age, wear and use issues will not be addressed as part of the claim"

def histSentence2 : String :=
  "Historic issues can be addressed outside the claim on a private client basis should this be of interest to the client."

def minorSentence : String :=
  "Some minor visible difference may remain in impacted area following treatment"

def structuralSentence : String :=
  "Underlying material instability will remain following treatment"

def flatteningSentence : String :=
  "Given the materials we may face limitation in flattening the artwork, we will take this to a safe level"

def structuralCodes : List String :=
  ["STRUCT_DAMAGED", "JOINTS_LOOSE", "VENEER_LIFTING", "VENEER_LOSS",
   "PNT_LIFTING", "PNT_LOSS", "PNT_TEAR", "WOP_MEDIA_LOSS", "WOP_HINGE_FAIL",
   "FRM_STRUCT", "GILT_ORNAMENT_CRACK", "OBJ_CORROSION", "OBJ_OXIDATION",
   "CERAMIC_CRACK", "CERAMIC_CHIP", "CERAMIC_BREAK", "TXT_TEAR",
   "UPH_FABRIC_DAMAGE", "RUG_COLOUR_RUN"]

def flatteningCodes : List String := ["WOP_COCKLING", "PNT_DEFORMATION"]

/-- One element of `payload.selections`, holding the fields `buildNotes_`
and the selection-row writer of `saveItem` read. -/
structure SelectionInput where
  code : String
  note : String
  localized : Bool
  deriving Repr, DecidableEq

/-- The fields of the item payload consumed by `buildNotes_`. -/
structure NotesPayload where
  historicYes : Bool
  selections : List SelectionInput
  deriving Repr, DecidableEq

/-- The separator `buildNotes_` joins with: the source reads
`out.join('\\n')`, i.e. the two-character sequence backslash-n, not a
newline. -/
def noteSeparator : String := "\\n"

/-- `buildNotes_(payload)` (backend.js:279-304).  `codes` is a `Set`, so
only membership and non-emptiness of the mapped code list matter. -/
def buildNotes (payload : NotesPayload) : String :=
  let codes := payload.selections.map (·.code)
  let out : List String :=
    (if payload.historicYes then [histSentence1, histSentence2] else []) ++
    (if codes.isEmpty then [] else [minorSentence]) ++
    (if structuralCodes.any (fun c => codes.contains c) then [structuralSentence] else []) ++
    (if flatteningCodes.any (fun c => codes.contains c) then [flatteningSentence] else [])
  String.intercalate noteSeparator out

/-- The full value grid `getDataRange().getValues()` of a sheet: row 1
followed by the data rows (see `dataRowsForRead`). -/
def getDataRangeValues (sh : Sheet) : List (List String) :=
  sh.header :: dataRowsForRead sh

/-- The scanning loop of `getNoteFromNotesRules_` (backend.js:319-324) over
the rows below the first: skip rows with a blank (trimmed) first column,
return the trimmed second column of the first row whose trimmed first
column equals the code case-insensitively. -/
def notesRulesLoop (code : String) : List (List String) → String
  | [] => ""
  | row :: rest =>
    let a := jsTrim (row.getD 0 "")
    let b := jsTrim (row.getD 1 "")
    if a = "" then notesRulesLoop code rest
    else if jsToLower a = jsToLower code then b
    else notesRulesLoop code rest

/-- `getNoteFromNotesRules_(code)` (backend.js:306-326) acting on the
`NotesRules` sheet (`none` = absent). -/
def getNoteFromNotesRules (osh : Option Sheet) (code0 : String) : String :=
  let code := jsTrim code0
  if code = "" then ""
  else
    match osh with
    | none => ""
    | some sh =>
      let v := getDataRangeValues sh
      if v.length < 2 then ""
      else notesRulesLoop code (v.drop 1)

/-! ### Selection flags written by `saveItem` -/

/-- The `NeedsReplacement` cell written for a selection
(backend.js:425,445): `/Replacement needed/i.test(note)` rendered as
TRUE/FALSE. -/
def needsReplacementField (note : String) : String :=
  if regexTestCI "Replacement needed" note then "TRUE" else "FALSE"

/-- The `NeedsReupholstery` cell written for a selection
(backend.js:426,446). -/
def needsReupholsteryField (note : String) : String :=
  if regexTestCI "Reupholstery needed" note then "TRUE" else "FALSE"

/-! ### Photo saving -/

/-- One element of the `photos` argument of `savePhotosDataUrls`. -/
structure PhotoEntry where
  dataUrl : String
  deriving Repr, DecidableEq

/-- The external collaborators `savePhotosDataUrls` calls per photo.
`none`/`false` models the collaborator throwing. -/
structure DriveEnv where
  getFolder : String → Bool
  decode : String → Option (List Nat)
  createFile : String → String → List Nat → Option String

/-- JavaScript line terminators relevant to `.` in a regex. -/
def isLineTerm (c : Char) : Bool := c == '\n' || c == '\r'

/-- `dataUrl.match(/^data:(image\/[^;]+);base64,(.+)$/)` (backend.js:479):
on success, the pair (content type `image/<subtype>`, base64 payload).
`[^;]+` takes the non-`;` run after `data:image/` (it must be non-empty and
be followed by the literal `;base64,`), and `(.+)$` requires a non-empty
remainder free of line terminators (`.` does not match them and `$` is not
in multiline mode). -/
def matchDataUrl (s : String) : Option (String × String) :=
  let cs := s.toList
  if cs.take 11 = "data:image/".toList then
    let rest := cs.drop 11
    let sub := rest.takeWhile (· ≠ ';')
    let rest2 := rest.drop sub.length
    if sub ≠ [] ∧ rest2.take 8 = ";base64,".toList then
      let content := rest2.drop 8
      if content ≠ [] ∧ content.all (fun c => !(isLineTerm c)) then
        some (("image/".toList ++ sub).asString, content.asString)
      else none
    else none
  else none

/-- The Drive file name built for photo `idx` (0-based) of an item:
`itemId + '-' + when + '-' + String(idx + 1).padStart(2, '0') + '.' + ext`,
with extension `png` for `image/png` and `jpg` otherwise
(backend.js:483-484). -/
def photoFileName (itemId time : String) (idx : Nat) (contentType : String) : String :=
  itemId ++ "-" ++ time ++ "-" ++ padStart (toString (idx + 1)) 2 '0' ++ "."
    ++ (if contentType = "image/png" then "png" else "jpg")

/-- The per-photo body of the `photos.forEach` loop of `savePhotosDataUrls`
(backend.js:476-500): returns the new value of the `saved` counter.  Any
failing stage (pattern mismatch, decode throw, file-creation throw) leaves
the counter unchanged; the Photos-sheet append cannot throw there (the
preceding `ensureSheet_` guarantees the `PhotoID` column) and does not
affect the returned count, so it is elided. -/
def savePhotoStep (env : DriveEnv) (itemId time : String) (acc : Nat)
    (idx : Nat) (p : PhotoEntry) : Nat :=
  match matchDataUrl p.dataUrl with
  | none => acc
  | some (contentType, content) =>
    match env.decode content with
    | none => acc
    | some bytes =>
      match env.createFile (photoFileName itemId time idx contentType) contentType bytes with
      | none => acc
      | some _ => acc + 1

/-- `savePhotosDataUrls(batchId, itemId, photos)` (backend.js:466-502):
`props` models `PropertiesService.getScriptProperties()`, `time` the
formatted timestamp `when`.  Returns the `{saved: n}` count, or the error
thrown before the loop. -/
def savePhotosDataUrls (env : DriveEnv) (props : String → Option String)
    (batchId itemId time : String) (photos : List PhotoEntry) :
    Except BackendError Nat :=
  if batchId = "" ∨ itemId = "" then
    .error (.validationError "Missing batchId or itemId")
  else if photos.isEmpty then .ok 0
  else
    let folderId := (props ("PHOTOS_" ++ batchId)).getD ""
    if folderId = "" then
      .error (.storageError "Photo folder not configured for this batch.")
    else if !(env.getFolder folderId) then
      .error (.storageError ("getFolderById failed: " ++ folderId))
    else
      .ok (photos.enum.foldl
        (fun acc ip => savePhotoStep env itemId time acc ip.1 ip.2) 0)

/-- Canonical header of the Items sheet (`HEADERS[SH_ITEMS]`, backend.js:41-46). -/
def itemsHeader : List String :=
  ["ItemID", "BatchID", "Code", "PerilType", "ImpactLevel", "Type", "Title", "Artist",
   "Material", "Date", "Dimensions", "Features", "HistoricIssuesPresent", "HistoricCode",
   "HistoricNotes", "TreatmentTimeMinutes", "TreatmentTimeUnit", "TreatmentTime",
   "AdditionalNotes", "OtherNotes", "Notes", "CreatedAt"]

/-- Did the per-photo body of `savePhotosDataUrls` store entry `p` (at
position `idx`) and count it?  Mirrors the stages of `savePhotoStep`. -/
def photoEntrySaves (env : DriveEnv) (itemId time : String) (idx : Nat)
    (p : PhotoEntry) : Bool :=
  match matchDataUrl p.dataUrl with
  | none => false
  | some (contentType, content) =>
    match env.decode content with
    | none => false
    | some bytes =>
      (env.createFile (photoFileName itemId time idx contentType) contentType bytes).isSome

/-- A Drive environment in which every collaborator call succeeds. -/
def envAllOk : DriveEnv :=
  { getFolder := fun _ => true
    decode := fun _ => some []
    createFile := fun _ _ _ => some "file-id" }

/-- Script properties holding a photo folder for batch `B` only. -/
def propsB : String → Option String :=
  fun k => if k = "PHOTOS_B" then some "folder-1" else none

/-! ### Helper lemmas: padding, content width, folds -/

theorem pad_map_getD (l : List String) :
    (List.range l.length).map (fun j => l.getD j "") = l := by
  apply List.ext_getElem (by simp)
  intro n h1 h2
  simp [List.getD_eq_getElem?_getD, List.getElem?_eq_getElem h2]

theorem getD_reverse (l : List String) (i : Nat) (hi : i < l.length) :
    l.reverse.getD i "" = l.getD (l.length - 1 - i) "" := by
  rw [List.getD_eq_getElem _ _ (by rw [List.length_reverse]; omega),
    List.getD_eq_getElem _ _ (by omega : l.length - 1 - i < l.length)]
  exact List.getElem_reverse _

theorem getD_of_contentWidth_le (l : List String) (p : Nat)
    (h : contentWidth l ≤ p) : l.getD p "" = "" := by
  by_cases hp : p < l.length
  · have hsplit : l.reverse.takeWhile (· == "") ++ l.reverse.dropWhile (· == "") = l.reverse :=
      List.takeWhile_append_dropWhile _ _
    have hlen : (l.reverse.takeWhile (· == "")).length + contentWidth l = l.length := by
      have h' := congrArg List.length hsplit
      simp only [List.length_append, List.length_reverse] at h'
      simp only [contentWidth]
      omega
    have hrev : l.getD p "" = l.reverse.getD (l.length - 1 - p) "" := by
      rw [getD_reverse _ _ (by omega)]
      congr 1
      omega
    have happ : l.reverse.getD (l.length - 1 - p) ""
        = (l.reverse.takeWhile (· == "")).getD (l.length - 1 - p) "" := by
      conv_lhs => rw [← hsplit]
      exact List.getD_append _ _ _ _ (by omega)
    have hin : l.length - 1 - p < (l.reverse.takeWhile (· == "")).length := by omega
    have hmem : (l.reverse.takeWhile (· == "")).getD (l.length - 1 - p) ""
        ∈ l.reverse.takeWhile (· == "") := by
      rw [List.getD_eq_getElem _ _ hin]
      exact List.getElem_mem _
    have hbeq := @List.mem_takeWhile_imp _ (· == "") l.reverse _ hmem
    rw [hrev, happ]
    exact beq_iff_eq.mp hbeq
  · exact List.getD_eq_default _ _ (by omega)

theorem lt_contentWidth_of_getD_ne (l : List String) (p : Nat)
    (h : l.getD p "" ≠ "") : p < contentWidth l := by
  by_contra hc
  exact h (getD_of_contentWidth_le l p (by omega))

theorem contentWidth_le_length (l : List String) : contentWidth l ≤ l.length := by
  have := congrArg List.length (List.takeWhile_append_dropWhile (· == "") l.reverse)
  simp only [List.length_append, List.length_reverse] at this
  simp only [contentWidth]
  omega

theorem contentWidth_append (l m : List String) (hm : m ≠ [])
    (hne : ∀ x ∈ m, x ≠ "") : contentWidth (l ++ m) = l.length + m.length := by
  obtain ⟨a, t, ht⟩ : ∃ a t, m.reverse = a :: t := by
    cases hm' : m.reverse with
    | nil =>
      exact absurd (by simpa using congrArg List.reverse hm') hm
    | cons a t => exact ⟨a, t, rfl⟩
  have ha : a ∈ m := by
    rw [← List.mem_reverse, ht]; exact List.mem_cons_self _ _
  have hane : ¬((a == "") = true) := by
    simpa using hne a ha
  have hlenm : t.length + 1 = m.length := by
    have := congrArg List.length ht
    simp only [List.length_reverse, List.length_cons] at this
    omega
  unfold contentWidth
  rw [List.reverse_append, ht, List.cons_append,
    List.dropWhile_cons_of_neg (p := (· == "")) hane]
  simp only [List.length_cons, List.length_append, List.length_reverse]
  omega

theorem le_foldr_max_init (l : List Nat) (a : Nat) : a ≤ l.foldr max a := by
  induction l with
  | nil => simp
  | cons x t ih =>
    simp only [List.foldr]
    omega

theorem le_foldr_max_of_mem (l : List Nat) (a x : Nat) (hx : x ∈ l) :
    x ≤ l.foldr max a := by
  induction l with
  | nil => cases hx
  | cons y t ih =>
    simp only [List.foldr]
    rcases List.mem_cons.mp hx with h | h
    · omega
    · have := ih h; omega

theorem foldr_max_eq_init (l : List Nat) (a : Nat) (h : ∀ x ∈ l, x ≤ a) :
    l.foldr max a = a := by
  induction l with
  | nil => rfl
  | cons x t ih =>
    have hx := h x (List.mem_cons_self _ _)
    have ht := ih (fun y hy => h y (List.mem_cons_of_mem _ hy))
    simp only [List.foldr, ht]
    omega

/-! ### Helper lemmas: `getHeaders` -/

theorem getHeaders_length (sh : Sheet) :
    (getHeaders sh).length = max 1 (lastColumn sh) := by
  simp [getHeaders]

theorem getHeaders_getD (sh : Sheet) (p : Nat) (hp : p < max 1 (lastColumn sh)) :
    (getHeaders sh).getD p "" = sh.header.getD p "" := by
  have hlen : p < (getHeaders sh).length := by rw [getHeaders_length]; omega
  rw [List.getD_eq_getElem _ _ hlen]
  simp [getHeaders]

theorem contentWidth_header_le_lastColumn (sh : Sheet) :
    contentWidth sh.header ≤ lastColumn sh :=
  le_foldr_max_init _ _

theorem contentWidth_row_le_lastColumn (sh : Sheet) (r : List String)
    (hr : r ∈ sh.rows) : contentWidth r ≤ lastColumn sh :=
  le_foldr_max_of_mem _ _ _ (List.mem_map_of_mem _ hr)

theorem mem_getHeaders_of_mem_header (sh : Sheet) (h : String) (hne : h ≠ "")
    (hmem : h ∈ sh.header) : h ∈ getHeaders sh := by
  obtain ⟨p, hp, he⟩ := List.mem_iff_getElem.mp hmem
  have hgd : sh.header.getD p "" = h := by rw [List.getD_eq_getElem _ _ hp, he]
  have hlt : p < contentWidth sh.header :=
    lt_contentWidth_of_getD_ne _ _ (by rw [hgd]; exact hne)
  have hlt2 : p < max 1 (lastColumn sh) := by
    have := contentWidth_header_le_lastColumn sh
    omega
  have hval : (getHeaders sh).getD p "" = h := by
    rw [getHeaders_getD sh p hlt2, hgd]
  have hlen : p < (getHeaders sh).length := by rw [getHeaders_length]; omega
  rw [← hval, List.getD_eq_getElem _ _ hlen]
  exact List.getElem_mem _

/-! ### `ensureSheet`: schema growth and idempotence -/

theorem ensureSheet_some_eq (sh : Sheet) (H : List String) :
    ensureSheet (some sh) H =
      if H.isEmpty then sh
      else if (H.filter (fun h => !((getHeaders sh).contains h))).isEmpty then sh
      else { sh with header := getHeaders sh ++ H.filter (fun h => !((getHeaders sh).contains h)) } :=
  rfl

theorem getHeaders_append_update (sh : Sheet) (m : List String) (hmnil : m ≠ [])
    (hmne : ∀ x ∈ m, x ≠ "") :
    getHeaders { sh with header := getHeaders sh ++ m } = getHeaders sh ++ m := by
  have hcw : contentWidth (getHeaders sh ++ m) = (getHeaders sh).length + m.length :=
    contentWidth_append _ _ hmnil hmne
  have hcurlen : (getHeaders sh).length = max 1 (lastColumn sh) := getHeaders_length sh
  have hrows : ∀ w ∈ (sh.rows.map contentWidth), w ≤ contentWidth (getHeaders sh ++ m) := by
    intro w hw
    obtain ⟨r, hr, hwr⟩ := List.mem_map.mp hw
    have h1 : contentWidth r ≤ lastColumn sh := contentWidth_row_le_lastColumn sh r hr
    omega
  have hlast : lastColumn { sh with header := getHeaders sh ++ m }
      = contentWidth (getHeaders sh ++ m) := by
    unfold lastColumn
    exact foldr_max_eq_init _ _ hrows
  have hone : max 1 (lastColumn { sh with header := getHeaders sh ++ m })
      = (getHeaders sh ++ m).length := by
    rw [hlast, hcw]
    simp only [List.length_append]
    omega
  have hdef : getHeaders { sh with header := getHeaders sh ++ m }
      = (List.range (max 1 (lastColumn { sh with header := getHeaders sh ++ m }))).map
          (fun j => (getHeaders sh ++ m).getD j "") := rfl
  rw [hdef, hone]
  exact pad_map_getD _

theorem ensureSheet_existing_spec (sh : Sheet) (H : List String) (hne : "" ∉ H) :
    getHeaders (ensureSheet (some sh) H)
      = getHeaders sh ++ H.filter (fun h => !((getHeaders sh).contains h)) ∧
    (ensureSheet (some sh) H).rows = sh.rows := by
  rw [ensureSheet_some_eq]
  by_cases hH : H.isEmpty = true
  · have hHnil : H = [] := List.isEmpty_iff.mp hH
    subst hHnil
    simp
  · rw [if_neg hH]
    by_cases hm : (H.filter (fun h => !((getHeaders sh).contains h))).isEmpty = true
    · rw [if_pos hm]
      have hm' : H.filter (fun h => !((getHeaders sh).contains h)) = [] :=
        List.isEmpty_iff.mp hm
      rw [hm']
      simp
    · rw [if_neg hm]
      have hmnil : H.filter (fun h => !((getHeaders sh).contains h)) ≠ [] := by
        intro hnil
        exact hm (by rw [hnil]; rfl)
      have hmne : ∀ x ∈ H.filter (fun h => !((getHeaders sh).contains h)), x ≠ "" := by
        intro x hx hx0
        exact hne (hx0 ▸ (List.mem_filter.mp hx).1)
      exact ⟨getHeaders_append_update sh _ hmnil hmne, rfl⟩

/-- C2 core corollary: position/name preservation for the pre-existing columns. -/
theorem ensureSheet_preserves_positions (sh : Sheet) (H : List String) (hne : "" ∉ H) :
    ∀ j, j < (getHeaders sh).length →
      (getHeaders (ensureSheet (some sh) H)).getD j "" = (getHeaders sh).getD j "" := by
  intro j hj
  rw [(ensureSheet_existing_spec sh H hne).1]
  exact List.getD_append _ _ _ _ hj

theorem contains_eq_mem (l : List String) (a : String) :
    l.contains a = true ↔ a ∈ l :=
  List.elem_iff

theorem contains_getHeaders_of_ensure (s0 : Option Sheet) (H : List String)
    (hne : "" ∉ H) : ∀ h ∈ H, h ∈ getHeaders (ensureSheet s0 H) := by
  intro h hh
  have hne' : h ≠ "" := fun h0 => hne (h0 ▸ hh)
  cases s0 with
  | none => exact mem_getHeaders_of_mem_header _ h hne' hh
  | some s =>
    rw [ensureSheet_some_eq]
    by_cases hH : H.isEmpty = true
    · rw [List.isEmpty_iff.mp hH] at hh
      cases hh
    · rw [if_neg hH]
      by_cases hm : (H.filter (fun x => !((getHeaders s).contains x))).isEmpty = true
      · rw [if_pos hm]
        have hfil := List.isEmpty_iff.mp hm
        rw [List.filter_eq_nil_iff] at hfil
        have hc := hfil h hh
        simp only [Bool.not_eq_true', Bool.not_eq_false] at hc
        exact (contains_eq_mem _ _).mp hc
      · rw [if_neg hm]
        apply mem_getHeaders_of_mem_header _ h hne'
        by_cases hc : (getHeaders s).contains h = true
        · exact List.mem_append_left _ ((contains_eq_mem _ _).mp hc)
        · refine List.mem_append_right _ (List.mem_filter.mpr ⟨hh, ?_⟩)
          simp only [Bool.not_eq_true] at hc
          rw [hc]
          rfl

/-- C3: `ensureSheet_` is idempotent — a second call with the same canonical
header (a list of non-blank column names) returns the sheet unchanged:
identical Header Row, no duplicated columns, and no error. -/
theorem ensureSheet_idempotent (s0 : Option Sheet) (H : List String)
    (hne : "" ∉ H) :
    ensureSheet (some (ensureSheet s0 H)) H = ensureSheet s0 H := by
  rw [ensureSheet_some_eq]
  by_cases hH : H.isEmpty = true
  · rw [if_pos hH]
  · rw [if_neg hH]
    have hfil : H.filter (fun h => !((getHeaders (ensureSheet s0 H)).contains h)) = [] := by
      rw [List.filter_eq_nil_iff]
      intro a ha
      have hmem : a ∈ getHeaders (ensureSheet s0 H) :=
        contains_getHeaders_of_ensure s0 H hne a ha
      have hc : (getHeaders (ensureSheet s0 H)).contains a = true :=
        (contains_eq_mem _ _).mpr hmem
      rw [hc]
      decide
    rw [hfil]
    simp

/-- C3 witness: idempotence at a concrete sheet and header. -/
theorem ensureSheet_idempotent_witness :
    ensureSheet (some (ensureSheet (some ⟨["A"], [["1", "2", "3"]]⟩) ["A", "B"])) ["A", "B"]
      = ensureSheet (some ⟨["A"], [["1", "2", "3"]]⟩) ["A", "B"] :=
  ensureSheet_idempotent (some ⟨["A"], [["1", "2", "3"]]⟩) ["A", "B"] (by decide)

/-- C2: growing a header that resulted from a prior `ensureSheet_` call with
`H1` by a superset header `H2` appends exactly the columns of `H2` not
already present, in canonical order, after the last existing column; every
pre-existing column keeps its name and position, and no data row is
touched. -/
theorem ensureSheet_superset_growth (s0 : Option Sheet) (H1 H2 : List String)
    (_hsub : H1 ⊆ H2) (hne : "" ∉ H2) :
    getHeaders (ensureSheet (some (ensureSheet s0 H1)) H2)
      = getHeaders (ensureSheet s0 H1)
        ++ H2.filter (fun h => !((getHeaders (ensureSheet s0 H1)).contains h)) ∧
    (∀ j, j < (getHeaders (ensureSheet s0 H1)).length →
        (getHeaders (ensureSheet (some (ensureSheet s0 H1)) H2)).getD j ""
          = (getHeaders (ensureSheet s0 H1)).getD j "") ∧
    (ensureSheet (some (ensureSheet s0 H1)) H2).rows = (ensureSheet s0 H1).rows :=
  ⟨(ensureSheet_existing_spec _ H2 hne).1,
   ensureSheet_preserves_positions _ H2 hne,
   (ensureSheet_existing_spec _ H2 hne).2⟩

/-- C2 witness: growth from `["A"]` to `["A", "B"]` on a fresh sheet. -/
theorem ensureSheet_superset_growth_witness :
    getHeaders (ensureSheet (some (ensureSheet none ["A"])) ["A", "B"])
      = getHeaders (ensureSheet none ["A"])
        ++ List.filter (fun h => !((getHeaders (ensureSheet none ["A"])).contains h)) ["A", "B"] :=
  (ensureSheet_superset_growth none ["A"] ["A", "B"] (by decide) (by decide)).1

/-! ### C1: `nextFreeRowByHeader` -/

theorem nextFreeRowByHeader_eq (sh : Sheet) (key : String) :
    nextFreeRowByHeader sh key =
      match (getHeaders sh).findIdx? (· == key) with
      | none => .error (.schemaError ("Key header not found: " ++ key))
      | some idx =>
        match (sh.rows.map (fun row => row.getD idx "")).reverse.findIdx? (· != "") with
        | some k => .ok ((sh.rows.map (fun row => row.getD idx "")).length - 1 - k + 2 + 1)
        | none => .ok 2 :=
  rfl

theorem nextFreeRowByHeader_eq_some (sh : Sheet) (key : String) (idx : Nat)
    (hidx : (getHeaders sh).findIdx? (· == key) = some idx) :
    nextFreeRowByHeader sh key =
      match (sh.rows.map (fun row => row.getD idx "")).reverse.findIdx? (· != "") with
      | some k => .ok ((sh.rows.map (fun row => row.getD idx "")).length - 1 - k + 2 + 1)
      | none => .ok 2 := by
  rw [nextFreeRowByHeader_eq, hidx]

/-- C1: when the key column name is absent from the Header Row,
`nextFreeRowByHeader_` fails with the design document's SchemaError;
when it is present (at first occurrence `idx`), the returned row is one
greater than the sheet row of the last data row whose displayed key-column
value is non-empty (position `i` among the rows below the header maps to
sheet row `i + 2`), and 2 when every displayed key-column value is empty
(in particular when there are no rows below the header). -/
theorem nextFreeRow_correct (sh : Sheet) (key : String) :
    (key ∉ getHeaders sh →
      nextFreeRowByHeader sh key
        = .error (.schemaError ("Key header not found: " ++ key))) ∧
    (∀ idx, (getHeaders sh).findIdx? (· == key) = some idx →
      ((∃ i, (sh.rows.map (fun row => row.getD idx "")).getD i "" ≠ "" ∧
          (∀ j, i < j → (sh.rows.map (fun row => row.getD idx "")).getD j "" = "") ∧
          nextFreeRowByHeader sh key = .ok (i + 2 + 1)) ∨
       ((∀ j, (sh.rows.map (fun row => row.getD idx "")).getD j "" = "") ∧
          nextFreeRowByHeader sh key = .ok 2))) := by
  constructor
  · intro hk
    have hnone : (getHeaders sh).findIdx? (· == key) = none := by
      rw [List.findIdx?_eq_none_iff]
      intro x hx
      exact beq_eq_false_iff_ne.mpr (fun he => hk (he ▸ hx))
    rw [nextFreeRowByHeader_eq, hnone]
  · intro idx hidx
    rw [nextFreeRowByHeader_eq_some sh key idx hidx]
    cases hscan : (sh.rows.map (fun row => row.getD idx "")).reverse.findIdx? (· != "") with
    | some k =>
      left
      obtain ⟨hk, hpk, hmin⟩ := List.findIdx?_eq_some_iff_getElem.mp hscan
      rw [List.length_reverse] at hk
      have hpk2 : ((sh.rows.map (fun row => row.getD idx "")).reverse.getD k "" != "") = true := by
        rw [List.getD_eq_getElem _ _ (by rw [List.length_reverse]; omega)]
        exact hpk
      refine ⟨(sh.rows.map (fun row => row.getD idx "")).length - 1 - k, ?_, ?_, ?_⟩
      · have hrev : (sh.rows.map (fun row => row.getD idx "")).reverse.getD k ""
            = (sh.rows.map (fun row => row.getD idx "")).getD
                ((sh.rows.map (fun row => row.getD idx "")).length - 1 - k) "" :=
          getD_reverse _ _ (by omega)
        rw [← hrev]
        exact bne_iff_ne.mp hpk2
      · intro j hj
        by_cases hjlen : j < (sh.rows.map (fun row => row.getD idx "")).length
        · have hrevj : (sh.rows.map (fun row => row.getD idx "")).length - 1 - j < k := by omega
          have hfalse := hmin _ hrevj
          have hfalse2 : ¬((sh.rows.map (fun row => row.getD idx "")).reverse.getD
                ((sh.rows.map (fun row => row.getD idx "")).length - 1 - j) "" != "") = true := by
            rw [List.getD_eq_getElem _ _ (by rw [List.length_reverse]; omega)]
            exact hfalse
          have hrev : (sh.rows.map (fun row => row.getD idx "")).reverse.getD
                ((sh.rows.map (fun row => row.getD idx "")).length - 1 - j) ""
              = (sh.rows.map (fun row => row.getD idx "")).getD j "" := by
            rw [getD_reverse _ _ (by omega)]
            congr 1
            omega
          rw [hrev] at hfalse2
          simpa using hfalse2
        · exact List.getD_eq_default _ _ (by omega)
      · rfl
    | none =>
      right
      have hall : ∀ x ∈ (sh.rows.map (fun row => row.getD idx "")), x = "" := by
        intro x hx
        have := List.findIdx?_eq_none_iff.mp hscan x (List.mem_reverse.mpr hx)
        simpa using this
      refine ⟨?_, rfl⟩
      intro j
      by_cases hjlen : j < (sh.rows.map (fun row => row.getD idx "")).length
      · rw [List.getD_eq_getElem _ _ hjlen]
        exact hall _ (List.getElem_mem _)
      · exact List.getD_eq_default _ _ (by omega)

/-- C1 witness: a key column `[A, B, "", (blank)]` yields row 5 = (index 1) + 2 + 1. -/
theorem nextFreeRow_correct_witness :
    (∃ i, ((⟨["K"], [["A"], ["B"], [""], []]⟩ : Sheet).rows.map (fun row => row.getD 0 "")).getD i "" ≠ "" ∧
        (∀ j, i < j → ((⟨["K"], [["A"], ["B"], [""], []]⟩ : Sheet).rows.map (fun row => row.getD 0 "")).getD j "" = "") ∧
        nextFreeRowByHeader ⟨["K"], [["A"], ["B"], [""], []]⟩ "K" = .ok (i + 2 + 1)) ∨
    ((∀ j, ((⟨["K"], [["A"], ["B"], [""], []]⟩ : Sheet).rows.map (fun row => row.getD 0 "")).getD j "" = "") ∧
        nextFreeRowByHeader ⟨["K"], [["A"], ["B"], [""], []]⟩ "K" = .ok 2) :=
  (nextFreeRow_correct ⟨["K"], [["A"], ["B"], [""], []]⟩ "K").2 0 (by decide)

/-! ### C4: the sparse row write -/

theorem getD_append_replicate_default {α : Type} (l : List α) (d : α) (n j : Nat) :
    (l ++ List.replicate (n - l.length) d).getD j d = l.getD j d := by
  by_cases hj : j < l.length
  · exact List.getD_append _ _ _ _ hj
  · have hrhs : l.getD j d = d := List.getD_eq_default _ _ (by omega)
    rw [hrhs, List.getD_eq_getElem?_getD, List.getElem?_append_right (by omega),
      List.getElem?_replicate]
    split <;> rfl

theorem setCell_header (sh : Sheet) (r c : Nat) (v : String) :
    (setCell sh r c v).header = sh.header :=
  rfl

theorem setCell_eq (sh : Sheet) (r c : Nat) (v : String) :
    setCell sh r c v
      = { sh with rows :=
            ((sh.rows ++ List.replicate (r - 2 + 1 - sh.rows.length) []).set (r - 2)
              (setAt (sh.rows.getD (r - 2) []) c v)) } :=
  rfl

theorem setCell_rows_getD (sh : Sheet) (r c : Nat) (v : String) (i : Nat) :
    (setCell sh r c v).rows.getD i []
      = if i = r - 2 then setAt (sh.rows.getD (r - 2) []) c v
        else sh.rows.getD i [] := by
  rw [setCell_eq]
  by_cases hi : i = r - 2
  · rw [if_pos hi, hi]
    have hlen : r - 2 < (sh.rows ++ List.replicate (r - 2 + 1 - sh.rows.length) ([] : List String)).length := by
      simp only [List.length_append, List.length_replicate]
      omega
    rw [List.getD_eq_getElem?_getD, List.getElem?_set_self hlen]
    rfl
  · rw [if_neg hi, List.getD_eq_getElem?_getD, List.getElem?_set_ne (fun he => hi he.symm),
      ← List.getD_eq_getElem?_getD]
    exact getD_append_replicate_default _ _ _ _

theorem setAt_getD_same (l : List String) (j : Nat) (v : String) :
    (setAt l j v).getD j "" = v := by
  unfold setAt padTo
  have hlen : j < ((l ++ List.replicate (j + 1 - l.length) "").length) := by
    simp only [List.length_append, List.length_replicate]
    omega
  rw [List.getD_eq_getElem?_getD, List.getElem?_set_self hlen]
  rfl

theorem setAt_getD_other (l : List String) (j j' : Nat) (v : String) (hne : j' ≠ j) :
    (setAt l j v).getD j' "" = l.getD j' "" := by
  unfold setAt padTo
  rw [List.getD_eq_getElem?_getD, List.getElem?_set_ne (fun he => hne he.symm),
    ← List.getD_eq_getElem?_getD]
  exact getD_append_replicate_default _ _ _ _

theorem getCell_setCell_same (sh : Sheet) (r c : Nat) (v : String) :
    getCell (setCell sh r c v) r c = v := by
  unfold getCell
  rw [setCell_rows_getD, if_pos rfl]
  exact setAt_getD_same _ _ _

theorem getCell_setCell_other_row (sh : Sheet) (r c : Nat) (v : String)
    (r' c' : Nat) (hr : 2 ≤ r) (hr' : 2 ≤ r') (hne : r' ≠ r) :
    getCell (setCell sh r c v) r' c' = getCell sh r' c' := by
  unfold getCell
  rw [setCell_rows_getD, if_neg (by omega)]

theorem getCell_setCell_other_col (sh : Sheet) (r c : Nat) (v : String)
    (c' : Nat) (hne : c' ≠ c) :
    getCell (setCell sh r c v) r c' = getCell sh r c' := by
  unfold getCell
  rw [setCell_rows_getD, if_pos rfl]
  exact setAt_getD_other _ _ _ _ hne

theorem writeRecordCells_nil (sh : Sheet) (headers : List String) (r : Nat) :
    writeRecordCells sh headers r [] = sh :=
  rfl

theorem writeRecordCells_cons (sh : Sheet) (headers : List String) (r : Nat)
    (hv : String × String) (record : List (String × String)) :
    writeRecordCells sh headers r (hv :: record)
      = writeRecordCells
          (match headers.findIdx? (· == hv.1) with
           | some col => setCell sh r col hv.2
           | none => sh) headers r record :=
  rfl

theorem writeRecordCells_header (headers : List String) (r : Nat) :
    ∀ (record : List (String × String)) (sh : Sheet),
      (writeRecordCells sh headers r record).header = sh.header := by
  intro record
  induction record with
  | nil => intro sh; rfl
  | cons hv tl ih =>
    intro sh
    rw [writeRecordCells_cons, ih]
    cases h : headers.findIdx? (· == hv.1) with
    | none => rfl
    | some col => rfl

theorem writeRecordCells_frame_row (headers : List String) (r : Nat) (hr : 2 ≤ r) :
    ∀ (record : List (String × String)) (sh : Sheet) (r' c : Nat),
      2 ≤ r' → r' ≠ r →
      getCell (writeRecordCells sh headers r record) r' c = getCell sh r' c := by
  intro record
  induction record with
  | nil => intros; rfl
  | cons hv tl ih =>
    intro sh r' c hr' hne
    rw [writeRecordCells_cons]
    cases h : headers.findIdx? (· == hv.1) with
    | none =>
      exact ih _ _ _ hr' hne
    | some col =>
      exact (ih _ _ _ hr' hne).trans (getCell_setCell_other_row _ _ _ _ _ _ hr hr' hne)

theorem writeRecordCells_frame_col (headers : List String) (r : Nat) :
    ∀ (record : List (String × String)) (sh : Sheet) (c : Nat),
      (∀ hv ∈ record, headers.findIdx? (· == hv.1) ≠ some c) →
      getCell (writeRecordCells sh headers r record) r c = getCell sh r c := by
  intro record
  induction record with
  | nil => intros; rfl
  | cons hv tl ih =>
    intro sh c hall
    rw [writeRecordCells_cons]
    have htl : ∀ hv' ∈ tl, headers.findIdx? (· == hv'.1) ≠ some c :=
      fun hv' h => hall hv' (List.mem_cons_of_mem _ h)
    cases h : headers.findIdx? (· == hv.1) with
    | none =>
      exact ih _ _ htl
    | some col =>
      have hcol : c ≠ col := fun he => hall hv (List.mem_cons_self _ _) (he ▸ h)
      exact (ih _ _ htl).trans (getCell_setCell_other_col _ _ _ _ _ hcol)

theorem writeRecordCells_written (headers : List String) (r : Nat) :
    ∀ (record : List (String × String)) (sh : Sheet),
      (record.map Prod.fst).Nodup →
      ∀ hv ∈ record, ∀ c, headers.findIdx? (· == hv.1) = some c →
        getCell (writeRecordCells sh headers r record) r c = hv.2 := by
  intro record
  induction record with
  | nil =>
    intro sh _ hv hmem
    cases hmem
  | cons hd tl ih =>
    intro sh hnd hv hmem c hc
    have hnd' : hd.1 ∉ tl.map Prod.fst ∧ (tl.map Prod.fst).Nodup := by
      rw [List.map_cons, List.nodup_cons] at hnd
      exact hnd
    rw [writeRecordCells_cons]
    rcases List.mem_cons.mp hmem with he | hmemtl
    · subst he
      rw [hc]
      have hnotl : ∀ hv' ∈ tl, headers.findIdx? (· == hv'.1) ≠ some c := by
        intro hv' hmem' he'
        obtain ⟨hlt1, hp1, _⟩ := List.findIdx?_eq_some_iff_getElem.mp hc
        obtain ⟨hlt2, hp2, _⟩ := List.findIdx?_eq_some_iff_getElem.mp he'
        have e1 : headers.getD c "" = hv.1 := by
          rw [List.getD_eq_getElem _ _ hlt1]
          exact beq_iff_eq.mp hp1
        have e2 : headers.getD c "" = hv'.1 := by
          rw [List.getD_eq_getElem _ _ hlt2]
          exact beq_iff_eq.mp hp2
        have hmm : hv.1 ∈ tl.map Prod.fst := by
          rw [e1.symm.trans e2]
          exact List.mem_map_of_mem Prod.fst hmem'
        exact hnd'.1 hmm
      exact (writeRecordCells_frame_col headers r tl _ c hnotl).trans
        (getCell_setCell_same _ _ _ _)
    · cases h : headers.findIdx? (· == hd.1) with
      | none =>
        exact ih _ hnd'.2 hv hmemtl c hc
      | some col =>
        exact ih _ hnd'.2 hv hmemtl c hc

/-- C4: the sparse row write of `appendRowAtKey_` sets exactly the cells
`(r, position h)` for the record keys `h` present in the Header Row: keys
absent from the Header Row are ignored without error and mutate nothing,
cells of row `r` in columns no record key resolves to keep their prior
value, every other data row is untouched, and the Header Row itself is
unchanged. -/
theorem writeRecord_sparse (sh : Sheet) (r : Nat) (record : List (String × String))
    (hr : 2 ≤ r) (hnd : (record.map Prod.fst).Nodup) :
    (writeRecordCells sh (getHeaders sh) r record).header = sh.header ∧
    (∀ r' c, 2 ≤ r' → r' ≠ r →
      getCell (writeRecordCells sh (getHeaders sh) r record) r' c = getCell sh r' c) ∧
    (∀ c, (∀ hv ∈ record, (getHeaders sh).findIdx? (· == hv.1) ≠ some c) →
      getCell (writeRecordCells sh (getHeaders sh) r record) r c = getCell sh r c) ∧
    (∀ hv ∈ record, ∀ c, (getHeaders sh).findIdx? (· == hv.1) = some c →
      getCell (writeRecordCells sh (getHeaders sh) r record) r c = hv.2) :=
  ⟨writeRecordCells_header _ r record sh,
   fun r' c hr' hne => writeRecordCells_frame_row _ r hr record sh r' c hr' hne,
   fun c hall => writeRecordCells_frame_col _ r record sh c hall,
   fun hv hmem c hc => writeRecordCells_written _ r record sh hnd hv hmem c hc⟩

/-- C4 witness: writing `{X: 1, Z: 9}` into row 2 of a sheet with columns
`X, Y` leaves the `Y` cell unchanged (`Z` is ignored, `Y` is unmentioned). -/
theorem writeRecord_sparse_witness :
    getCell (writeRecordCells ⟨["X", "Y"], [["x0", "y0"]]⟩
        (getHeaders ⟨["X", "Y"], [["x0", "y0"]]⟩) 2 [("X", "1"), ("Z", "9")]) 2 1
      = getCell ⟨["X", "Y"], [["x0", "y0"]]⟩ 2 1 :=
  (writeRecord_sparse ⟨["X", "Y"], [["x0", "y0"]]⟩ 2 [("X", "1"), ("Z", "9")]
    (by decide) (by decide)).2.2.1 1 (by decide)

/-! ### C8: replacement / reupholstery flags -/

theorem isPrefixOf_eq_true_iff (l1 l2 : List Char) :
    l1.isPrefixOf l2 = true ↔ l1 <+: l2 :=
  List.isPrefixOf_iff_prefix

theorem hasSubstr_iff (s pat : List Char) : hasSubstr s pat = true ↔ pat <:+: s := by
  induction s with
  | nil =>
    simp only [hasSubstr, List.isEmpty_iff, List.infix_nil]
  | cons c t ih =>
    simp only [hasSubstr, Bool.or_eq_true, isPrefixOf_eq_true_iff, ih, List.infix_cons_iff]

theorem flagField_spec (pat note : String) :
    ((if regexTestCI pat note then "TRUE" else "FALSE") = "TRUE"
        ↔ lowerChars pat.toList <:+: lowerChars note.toList) ∧
    ((if regexTestCI pat note then "TRUE" else "FALSE") = "FALSE"
        ↔ ¬ lowerChars pat.toList <:+: lowerChars note.toList) := by
  unfold regexTestCI
  by_cases h : hasSubstr (lowerChars note.toList) (lowerChars pat.toList) = true
  · rw [if_pos h]
    have hin := (hasSubstr_iff _ _).mp h
    constructor
    · exact ⟨fun _ => hin, fun _ => rfl⟩
    · constructor
      · intro hfalse
        exact absurd hfalse (by decide)
      · intro hn
        exact absurd hin hn
  · rw [if_neg h]
    have hni : ¬ lowerChars pat.toList <:+: lowerChars note.toList :=
      fun hin => h ((hasSubstr_iff _ _).mpr hin)
    constructor
    · constructor
      · intro hfalse
        exact absurd hfalse (by decide)
      · intro hin
        exact absurd hin hni
    · exact ⟨fun _ => hni, fun _ => rfl⟩

/-- C8: the `NeedsReplacement` cell written by `saveItem` is TRUE iff the
selection note contains "Replacement needed" case-insensitively (the
lowered pattern occurs inside the lowered note) and FALSE otherwise, and
likewise `NeedsReupholstery` for "Reupholstery needed". -/
theorem needsFlags_spec (note : String) :
    (needsReplacementField note = "TRUE"
      ↔ lowerChars "Replacement needed".toList <:+: lowerChars note.toList) ∧
    (needsReplacementField note = "FALSE"
      ↔ ¬ lowerChars "Replacement needed".toList <:+: lowerChars note.toList) ∧
    (needsReupholsteryField note = "TRUE"
      ↔ lowerChars "Reupholstery needed".toList <:+: lowerChars note.toList) ∧
    (needsReupholsteryField note = "FALSE"
      ↔ ¬ lowerChars "Reupholstery needed".toList <:+: lowerChars note.toList) :=
  ⟨(flagField_spec "Replacement needed" note).1,
   (flagField_spec "Replacement needed" note).2,
   (flagField_spec "Reupholstery needed" note).1,
   (flagField_spec "Reupholstery needed" note).2⟩

/-! ### C5: `buildNotes_` -/

theorem buildNotes_eq (p : NotesPayload) :
    buildNotes p = String.intercalate "\\n"
      ((if p.historicYes then [histSentence1, histSentence2] else []) ++
       (if (p.selections.map (·.code)).isEmpty then [] else [minorSentence]) ++
       (if structuralCodes.any (fun c => (p.selections.map (·.code)).contains c)
          then [structuralSentence] else []) ++
       (if flatteningCodes.any (fun c => (p.selections.map (·.code)).contains c)
          then [flatteningSentence] else [])) :=
  rfl

theorem any_contains_iff (codes : List String) (sels : List SelectionInput) :
    codes.any (fun c => (sels.map (·.code)).contains c) = true
      ↔ ∃ s ∈ sels, s.code ∈ codes := by
  rw [List.any_eq_true]
  constructor
  · rintro ⟨c, hc, hcont⟩
    obtain ⟨s, hs, hsc⟩ := List.mem_map.mp ((contains_eq_mem _ _).mp hcont)
    exact ⟨s, hs, hsc ▸ hc⟩
  · rintro ⟨s, hs, hsc⟩
    exact ⟨s.code, hsc, (contains_eq_mem _ _).mpr (List.mem_map_of_mem _ hs)⟩

set_option maxRecDepth 40000 in
/-- C5 counterexample: on the claim's own input (historic flag set, one
selection with code STRUCT_DAMAGED) the produced text is NOT the four
sentences joined by newline characters — it contains no newline at all:
`buildNotes_` joins with `'\\n'` (backend.js:303), the literal
two-character sequence backslash-n. -/
theorem buildNotes_newline_counterexample :
    buildNotes ⟨true, [⟨"STRUCT_DAMAGED", "", false⟩]⟩
        ≠ histSentence1 ++ "\n" ++ histSentence2 ++ "\n" ++ minorSentence
          ++ "\n" ++ structuralSentence ∧
    ('\n' ∈ (buildNotes ⟨true, [⟨"STRUCT_DAMAGED", "", false⟩]⟩).toList ↔ False) ∧
    buildNotes ⟨true, [⟨"STRUCT_DAMAGED", "", false⟩]⟩
        = histSentence1 ++ "\\n" ++ histSentence2 ++ "\\n" ++ minorSentence
          ++ "\\n" ++ structuralSentence := by
  refine ⟨by decide, by decide, by decide⟩

/-- C5 (amended): each fixed sentence appears iff its category matches
(historic flag; any selection present; any structural code; any flattening
code), in that fixed priority order, joined by the two-character separator
backslash-n (the literal `'\\n'` of backend.js:303), not a newline. -/
theorem buildNotes_spec (p : NotesPayload) :
    buildNotes p = String.intercalate "\\n"
      ((if p.historicYes then [histSentence1, histSentence2] else []) ++
       (if p.selections = [] then [] else [minorSentence]) ++
       (if ∃ s ∈ p.selections, s.code ∈ structuralCodes then [structuralSentence] else []) ++
       (if ∃ s ∈ p.selections, s.code ∈ flatteningCodes then [flatteningSentence] else [])) := by
  rw [buildNotes_eq]
  have e2 : (if (p.selections.map (·.code)).isEmpty then ([] : List String) else [minorSentence])
      = (if p.selections = [] then [] else [minorSentence]) :=
    if_congr (by simp [List.isEmpty_iff]) rfl rfl
  have e3 : (if structuralCodes.any (fun c => (p.selections.map (·.code)).contains c)
        then [structuralSentence] else ([] : List String))
      = (if ∃ s ∈ p.selections, s.code ∈ structuralCodes then [structuralSentence] else []) :=
    if_congr (any_contains_iff _ _) rfl rfl
  have e4 : (if flatteningCodes.any (fun c => (p.selections.map (·.code)).contains c)
        then [flatteningSentence] else ([] : List String))
      = (if ∃ s ∈ p.selections, s.code ∈ flatteningCodes then [flatteningSentence] else []) :=
    if_congr (any_contains_iff _ _) rfl rfl
  rw [e2, e3, e4]

/-! ### C10: the NotesRules lookup -/

theorem getNoteFromNotesRules_eq (osh : Option Sheet) (code0 : String) :
    getNoteFromNotesRules osh code0
      = if jsTrim code0 = "" then ""
        else
          match osh with
          | none => ""
          | some sh =>
            if (getDataRangeValues sh).length < 2 then ""
            else notesRulesLoop (jsTrim code0) ((getDataRangeValues sh).drop 1) :=
  rfl

theorem notesRulesLoop_cons (code : String) (row : List String) (rest : List (List String)) :
    notesRulesLoop code (row :: rest)
      = (if jsTrim (row.getD 0 "") = "" then notesRulesLoop code rest
         else if jsToLower (jsTrim (row.getD 0 "")) = jsToLower code then jsTrim (row.getD 1 "")
         else notesRulesLoop code rest) :=
  rfl

theorem notesRulesLoop_eq_find (code : String) :
    ∀ rows : List (List String),
      notesRulesLoop code rows
        = (rows.find? (fun row =>
              (jsTrim (row.getD 0 "") != "") &&
              (jsToLower (jsTrim (row.getD 0 "")) == jsToLower code))).elim ""
            (fun row => jsTrim (row.getD 1 "")) := by
  intro rows
  induction rows with
  | nil => rfl
  | cons row rest ih =>
    rw [notesRulesLoop_cons, List.find?_cons]
    by_cases ha : jsTrim (row.getD 0 "") = ""
    · rw [if_pos ha]
      have hp : ((jsTrim (row.getD 0 "") != "") &&
          (jsToLower (jsTrim (row.getD 0 "")) == jsToLower code)) = false := by
        rw [ha]
        rfl
      simp only [hp]
      exact ih
    · rw [if_neg ha]
      by_cases hb : jsToLower (jsTrim (row.getD 0 "")) = jsToLower code
      · rw [if_pos hb]
        have hp : ((jsTrim (row.getD 0 "") != "") &&
            (jsToLower (jsTrim (row.getD 0 "")) == jsToLower code)) = true := by
          rw [bne_iff_ne.mpr ha, beq_iff_eq.mpr hb]
          rfl
        simp only [hp]
        rfl
      · rw [if_neg hb]
        have hp : ((jsTrim (row.getD 0 "") != "") &&
            (jsToLower (jsTrim (row.getD 0 "")) == jsToLower code)) = false := by
          rw [beq_eq_false_iff_ne.mpr hb, Bool.and_false]
        simp only [hp]
        exact ih

/-- C10: with a non-blank (trimmed) code and a NotesRules data range of at
least two rows, the lookup returns the trimmed second column of the FIRST
data row (rows below the first) whose trimmed first column is non-blank and
equals the trimmed code case-insensitively, or the empty string if none
matches; and it returns the empty string, never an error, for a blank code,
an absent sheet, or a data range shorter than two rows. -/
theorem notesRules_spec (osh : Option Sheet) (code : String) :
    (∀ sh, osh = some sh → jsTrim code ≠ "" → 2 ≤ (getDataRangeValues sh).length →
      getNoteFromNotesRules osh code
        = (((getDataRangeValues sh).drop 1).find? (fun row =>
              (jsTrim (row.getD 0 "") != "") &&
              (jsToLower (jsTrim (row.getD 0 "")) == jsToLower (jsTrim code)))).elim ""
            (fun row => jsTrim (row.getD 1 ""))) ∧
    (jsTrim code = "" → getNoteFromNotesRules osh code = "") ∧
    (osh = none → getNoteFromNotesRules osh code = "") ∧
    (∀ sh, osh = some sh → (getDataRangeValues sh).length < 2 →
      getNoteFromNotesRules osh code = "") := by
  refine ⟨?_, ?_, ?_, ?_⟩
  · intro sh hsh hcode hlen
    subst hsh
    rw [getNoteFromNotesRules_eq, if_neg hcode]
    show (if (getDataRangeValues sh).length < 2 then ""
          else notesRulesLoop (jsTrim code) ((getDataRangeValues sh).drop 1)) = _
    rw [if_neg (by omega)]
    exact notesRulesLoop_eq_find _ _
  · intro hcode
    rw [getNoteFromNotesRules_eq, if_pos hcode]
  · intro hnone
    subst hnone
    rw [getNoteFromNotesRules_eq]
    by_cases hcode : jsTrim code = ""
    · rw [if_pos hcode]
    · rw [if_neg hcode]
  · intro sh hsh hlen
    subst hsh
    rw [getNoteFromNotesRules_eq]
    by_cases hcode : jsTrim code = ""
    · rw [if_pos hcode]
    · rw [if_neg hcode]
      show (if (getDataRangeValues sh).length < 2 then ""
            else notesRulesLoop (jsTrim code) ((getDataRangeValues sh).drop 1)) = ""
      rw [if_pos hlen]

/-- C10 witness: first matching row wins (two rows match `ab`; the first
row's note, trimmed, is returned), at a concrete table and code. -/
theorem notesRules_spec_witness :
    getNoteFromNotesRules
        (some ⟨["Code", "NoteText"], [[" ab ", " note1 "], ["ab", "note2"]]⟩) "AB"
      = ((((getDataRangeValues ⟨["Code", "NoteText"], [[" ab ", " note1 "], ["ab", "note2"]]⟩).drop 1).find?
            (fun row => (jsTrim (row.getD 0 "") != "") &&
              (jsToLower (jsTrim (row.getD 0 "")) == jsToLower (jsTrim "AB")))).elim ""
          (fun row => jsTrim (row.getD 1 ""))) :=
  (notesRules_spec
      (some ⟨["Code", "NoteText"], [[" ab ", " note1 "], ["ab", "note2"]]⟩) "AB").1
    ⟨["Code", "NoteText"], [[" ab ", " note1 "], ["ab", "note2"]]⟩ rfl
    (by decide) (by decide)

/-! ### C9: the per-batch item code -/

theorem recordGet_last_occurrence (head row : List String) (key : String) (j : Nat)
    (hj : j < head.length) (hname : head.getD j "" = key)
    (hlast : ∀ k, j < k → k < head.length → head.getD k "" ≠ key) :
    recordGet head row key = some (row.getD j "") := by
  unfold recordGet
  have hfind : head.reverse.findIdx? (· == key) = some (head.length - 1 - j) := by
    rw [List.findIdx?_eq_some_iff_getElem]
    have hlen : head.length - 1 - j < head.reverse.length := by
      rw [List.length_reverse]
      omega
    refine ⟨hlen, ?_, ?_⟩
    · rw [← List.getD_eq_getElem _ _ hlen, getD_reverse _ _ (by omega)]
      have hj2 : head.length - 1 - (head.length - 1 - j) = j := by omega
      rw [hj2, hname]
      exact beq_self_eq_true key
    · intro i hi
      have hilen : i < head.reverse.length := by
        rw [List.length_reverse]
        omega
      rw [← List.getD_eq_getElem _ _ hilen,
        getD_reverse _ _ (by rw [List.length_reverse] at hilen; omega)]
      have hgt : j < head.length - 1 - i := by omega
      have hlt2 : head.length - 1 - i < head.length := by omega
      simpa using hlast _ hgt hlt2
  rw [hfind]
  show some (row.getD (head.length - 1 - (head.length - 1 - j)) "") = some (row.getD j "")
  have hj2 : head.length - 1 - (head.length - 1 - j) = j := by omega
  rw [hj2]

theorem nextCodeForBatch_some_eq (sh : Sheet) (batchId : String) :
    nextCodeForBatch (some sh) batchId
      = "I" ++ padStart (toString (((dataRowsForRead sh).filter
          (fun row => recordGet (getHeaders sh) row "BatchID" == some batchId)).length + 1)) 3 '0' :=
  rfl

/-- C9: when `BatchID` occurs in the Items Header Row with last occurrence
at column `j`, the code assigned to a newly saved item is `I` followed by
one plus the number of existing data rows whose `BatchID` cell equals the
batch identifier, zero-padded to (at least) three digits; in particular a
fresh batch yields `I001` and a batch with one existing item yields
`I002`. -/
theorem nextCode_spec (sh : Sheet) (batchId : String) (j : Nat)
    (hj : j < (getHeaders sh).length)
    (hname : (getHeaders sh).getD j "" = "BatchID")
    (hlast : ∀ k, j < k → k < (getHeaders sh).length →
      (getHeaders sh).getD k "" ≠ "BatchID") :
    nextCodeForBatch (some sh) batchId
      = "I" ++ padStart (toString (1 + ((dataRowsForRead sh).filter
          (fun row => row.getD j "" == batchId)).length)) 3 '0' ∧
    nextCodeForBatch (some ⟨itemsHeader, []⟩) "BATCH-X" = "I001" ∧
    nextCodeForBatch (some ⟨itemsHeader, [["ITM-aaaaaaaa", "BATCH-X", "I001"]]⟩) "BATCH-X"
      = "I002" := by
  refine ⟨?_, by decide, by decide⟩
  rw [nextCodeForBatch_some_eq]
  have hfilter : (dataRowsForRead sh).filter
        (fun row => recordGet (getHeaders sh) row "BatchID" == some batchId)
      = (dataRowsForRead sh).filter (fun row => row.getD j "" == batchId) := by
    apply List.filter_congr
    intro row _
    rw [recordGet_last_occurrence (getHeaders sh) row "BatchID" j hj hname hlast]
    rfl
  rw [hfilter, Nat.add_comm 1]

/-- C9 witness: one existing row for batch `B1` gives the formula count 1,
hence code `I002`. -/
theorem nextCode_spec_witness :
    nextCodeForBatch (some ⟨["ItemID", "BatchID"], [["i1", "B1"]]⟩) "B1"
      = "I" ++ padStart (toString (1 + (((dataRowsForRead ⟨["ItemID", "BatchID"], [["i1", "B1"]]⟩).filter
          (fun row => row.getD 1 "" == "B1"))).length)) 3 '0' :=
  (nextCode_spec ⟨["ItemID", "BatchID"], [["i1", "B1"]]⟩ "B1" 1 (by decide) (by decide)
    (by
      intro k h1 h2
      have hlen2 : (getHeaders (⟨["ItemID", "BatchID"], [["i1", "B1"]]⟩ : Sheet)).length = 2 := by
        decide
      omega)).1

/-! ### C6 and C7: `savePhotosDataUrls` -/

theorem savePhotosDataUrls_eq (env : DriveEnv) (props : String → Option String)
    (batchId itemId time : String) (photos : List PhotoEntry) :
    savePhotosDataUrls env props batchId itemId time photos
      = if batchId = "" ∨ itemId = "" then
          .error (.validationError "Missing batchId or itemId")
        else if photos.isEmpty then .ok 0
        else if (props ("PHOTOS_" ++ batchId)).getD "" = "" then
          .error (.storageError "Photo folder not configured for this batch.")
        else if !(env.getFolder ((props ("PHOTOS_" ++ batchId)).getD "")) then
          .error (.storageError ("getFolderById failed: " ++ (props ("PHOTOS_" ++ batchId)).getD ""))
        else
          .ok (photos.enum.foldl (fun acc ip => savePhotoStep env itemId time acc ip.1 ip.2) 0) :=
  rfl

theorem savePhotoStep_eq_if (env : DriveEnv) (itemId time : String)
    (acc idx : Nat) (p : PhotoEntry) :
    savePhotoStep env itemId time acc idx p
      = acc + (if photoEntrySaves env itemId time idx p then 1 else 0) := by
  unfold savePhotoStep photoEntrySaves
  cases hm : matchDataUrl p.dataUrl with
  | none => rfl
  | some ctc =>
    obtain ⟨ct, content⟩ := ctc
    show (match env.decode content with
        | none => acc
        | some bytes =>
          match env.createFile (photoFileName itemId time idx ct) ct bytes with
          | none => acc
          | some _ => acc + 1)
      = acc + (if (match env.decode content with
            | none => false
            | some bytes =>
              (env.createFile (photoFileName itemId time idx ct) ct bytes).isSome) = true
          then 1 else 0)
    cases hd : env.decode content with
    | none => rfl
    | some bytes =>
      show (match env.createFile (photoFileName itemId time idx ct) ct bytes with
          | none => acc
          | some _ => acc + 1)
        = acc + (if ((env.createFile (photoFileName itemId time idx ct) ct bytes).isSome) = true
            then 1 else 0)
      cases hc : env.createFile (photoFileName itemId time idx ct) ct bytes with
      | none => rfl
      | some fid => rfl

theorem foldl_savePhotoStep_count (env : DriveEnv) (itemId time : String) :
    ∀ (l : List (Nat × PhotoEntry)) (acc : Nat),
      l.foldl (fun a ip => savePhotoStep env itemId time a ip.1 ip.2) acc
        = acc + l.countP (fun ip => photoEntrySaves env itemId time ip.1 ip.2) := by
  intro l
  induction l with
  | nil =>
    intro acc
    rfl
  | cons ip rest ih =>
    intro acc
    rw [List.foldl_cons, ih, List.countP_cons, savePhotoStep_eq_if]
    cases h : photoEntrySaves env itemId time ip.1 ip.2 with
    | true =>
      simp [h]
      omega
    | false =>
      simp [h]

/-- C6 counterexample: with non-empty `batchId`/`itemId` but no photo
folder configured for the batch, the call throws (backend.js:472) instead
of returning a success object. -/
theorem savePhotos_missing_folder_counterexample :
    (("B" : String) ≠ "" ∧ ("I" : String) ≠ "") ∧
    savePhotosDataUrls envAllOk (fun _ => none) "B" "I" "t0" [⟨"x"⟩]
      = .error (.storageError "Photo folder not configured for this batch.") :=
  ⟨⟨by decide, by decide⟩, rfl⟩

/-- C6 (amended): provided the batch's photo folder is configured (the
`PHOTOS_` property resolves to a non-empty folder id) and the folder
resolves, a call with non-empty `batchId` and `itemId` always returns a
success count `n` with `0 ≤ n ≤ photos.length` and never throws. -/
theorem savePhotos_success (env : DriveEnv) (props : String → Option String)
    (batchId itemId time : String) (photos : List PhotoEntry)
    (hb : batchId ≠ "") (hi : itemId ≠ "")
    (hf : (props ("PHOTOS_" ++ batchId)).getD "" ≠ "")
    (hg : env.getFolder ((props ("PHOTOS_" ++ batchId)).getD "") = true) :
    ∃ n, savePhotosDataUrls env props batchId itemId time photos = .ok n ∧
      n ≤ photos.length := by
  rw [savePhotosDataUrls_eq, if_neg (by tauto)]
  by_cases hp : photos.isEmpty = true
  · rw [if_pos hp]
    exact ⟨0, rfl, by omega⟩
  · rw [if_neg hp, if_neg hf, if_neg (by rw [hg]; decide)]
    refine ⟨_, rfl, ?_⟩
    rw [foldl_savePhotoStep_count]
    have h1 : photos.enum.countP (fun ip => photoEntrySaves env itemId time ip.1 ip.2)
        ≤ photos.enum.length := List.countP_le_length _
    have h2 : photos.enum.length = photos.length := List.enum_length
    omega

/-- C6 witness: a configured batch with one valid photo. -/
theorem savePhotos_success_witness :
    ∃ n, savePhotosDataUrls envAllOk propsB "B" "I" "t0"
        [⟨"data:image/png;base64,AAAA"⟩] = .ok n ∧
      n ≤ [PhotoEntry.mk "data:image/png;base64,AAAA"].length :=
  savePhotos_success envAllOk propsB "B" "I" "t0" _
    (by decide) (by decide) (by decide) (by decide)

/-- C7: on the folder-configured success path the returned count is exactly
the number of entries that pass every per-photo stage — each entry's
contribution depends only on that entry, so a non-matching payload or a
failing decode/storage call skips that entry without error and without
affecting its siblings — and an entry whose payload does not match the
embedded-image pattern is never counted. -/
theorem savePhotos_filtering (env : DriveEnv) (props : String → Option String)
    (batchId itemId time : String) (photos : List PhotoEntry)
    (hb : batchId ≠ "") (hi : itemId ≠ "") (hnp : photos ≠ [])
    (hf : (props ("PHOTOS_" ++ batchId)).getD "" ≠ "")
    (hg : env.getFolder ((props ("PHOTOS_" ++ batchId)).getD "") = true) :
    savePhotosDataUrls env props batchId itemId time photos
      = .ok (photos.enum.countP (fun ip => photoEntrySaves env itemId time ip.1 ip.2)) ∧
    (∀ ip : Nat × PhotoEntry, matchDataUrl ip.2.dataUrl = none →
      photoEntrySaves env itemId time ip.1 ip.2 = false) := by
  constructor
  · rw [savePhotosDataUrls_eq, if_neg (by tauto),
      if_neg (fun h => hnp (List.isEmpty_iff.mp h)), if_neg hf,
      if_neg (by rw [hg]; decide), foldl_savePhotoStep_count, Nat.zero_add]
  · intro ip hm
    unfold photoEntrySaves
    rw [hm]

/-- C7 witness: one well-formed `data:image/png;base64,...` entry plus one
non-matching entry yields `{saved: 1}`. -/
theorem savePhotos_filtering_witness :
    savePhotosDataUrls envAllOk propsB "B" "I" "t0"
        [⟨"data:image/png;base64,AAAA"⟩, ⟨"nope"⟩] = .ok 1 := by
  have h := (savePhotos_filtering envAllOk propsB "B" "I" "t0"
      [⟨"data:image/png;base64,AAAA"⟩, ⟨"nope"⟩] (by decide) (by decide) (by decide)
      (by decide) (by decide)).1
  rw [h]
  rfl

end Farco
